import Mathlib

/-!
Verification development for the DocuMind-RAG core: the FAISS-backed vector
store (`src/vectorstore/faiss_store.py`), the token chunker
(`src/ingestion/chunker.py`), the cross-encoder reranker
(`src/retrieval/reranker.py`), the index builder (`src/indexer.py`) and the
hot-reload coordinator / debounced file watcher (`main.py`).

Modelling conventions:
* Python floats are idealised as real numbers (`ℝ`); `numpy` arrays become
  `List (List ℝ)` together with an explicit column count (`NpMatrix`).
* Raised Python exceptions become `Except PyError` results.
* External collaborators (pdf parsing, tiktoken, the embedding model, the
  cross-encoder) are universally quantified function parameters, exactly as
  the spec treats them: opaque services at an interface boundary.
* The faiss library itself is modelled at its documented interface:
  `IndexFlatIP` performs exact brute-force inner-product top-k search, and
  `write_index`/`read_index` round-trip the stored matrix exactly.
-/

namespace DocuMind

/-- Python exception values raised by the modelled code, tagged by the Python
exception class and carrying the formatted message. -/
inductive PyError where
  | valueError (msg : String)
  | runtimeError (msg : String)
  | fileNotFoundError (msg : String)
deriving DecidableEq, Repr

/-- L2 norm of one row, as computed rowwise by `np.linalg.norm(x, axis=1)` in
`_normalize_vectors`: the square root of the sum of squares. -/
noncomputable def rowNorm (v : List ℝ) : ℝ :=
  Real.sqrt (v.map (fun x => x ^ 2)).sum

/-- Model of `_normalize_vectors` restricted to one row: the row's norm is
computed, a zero norm is replaced by `1` (`np.where(norms == 0, 1.0, norms)`),
and the row is divided elementwise by the resulting divisor. -/
noncomputable def normalizeRow (v : List ℝ) : List ℝ :=
  let n := rowNorm v
  let n1 := if n = 0 then 1 else n
  v.map (fun x => x / n1)

/-- Model of `_normalize_vectors` from `faiss_store.py`: every row is
L2-normalized, with zero norms substituted by `1` before dividing. -/
noncomputable def normalize_vectors (x : List (List ℝ)) : List (List ℝ) :=
  x.map normalizeRow

/-- A `numpy` 2-D float array as passed to `add_embeddings`/`search`: its
column count (`shape[1]`) plus the row data.  `_ensure_float32` is the
identity in the real-number idealisation (its 1-D reshape does not arise for
the 2-D batches modelled here; queries are modelled 1-D, where `shape[1]` is
the vector length). -/
structure NpMatrix where
  cols : Nat
  data : List (List ℝ)

/-- Shape well-formedness of a `numpy` matrix: every row has `cols` entries. -/
def NpMatrix.WF (m : NpMatrix) : Prop :=
  ∀ r ∈ m.data, r.length = m.cols

/-- Model of `FaissVectorStore`: the fixed `embedding_dim`, the optional faiss
`IndexFlatIP` (modelled by the list of its stored rows, in insertion order),
the parallel `_metadata` list, and the `_built` flag.  The metadata element
type `M` is abstract (`list[dict]` in Python). -/
structure FaissVectorStore (M : Type) where
  embedding_dim : Nat
  index : Option (List (List ℝ))
  metadata : List M
  built : Bool

/-- Model of `FaissVectorStore.__init__`: rejects `embedding_dim < 1`,
otherwise starts with no index and empty metadata. -/
def FaissVectorStore.init (M : Type) (embedding_dim : Nat) :
    Except PyError (FaissVectorStore M) :=
  if embedding_dim < 1 then .error (.valueError "embedding_dim must be >= 1")
  else .ok ⟨embedding_dim, none, [], false⟩

/-- Model of `FaissVectorStore.build_index`: fresh empty `IndexFlatIP`, reset
metadata. -/
def FaissVectorStore.buildIndex {M : Type} (s : FaissVectorStore M) :
    FaissVectorStore M :=
  { s with index := some [], metadata := [], built := true }

/-- Model of `FaissVectorStore.add_embeddings`: builds the index if absent,
checks the batch's column count against the store dimension and the metadata
length against the batch's row count (each failure raising `ValueError`), then
appends the L2-normalized rows to the index and the metadata to the sidecar
list. -/
noncomputable def FaissVectorStore.add_embeddings {M : Type}
    (s : FaissVectorStore M) (embeddings : NpMatrix) (metadata : List M) :
    Except PyError (FaissVectorStore M) :=
  let s1 := match s.index with
    | none => s.buildIndex
    | some _ => s
  if embeddings.cols ≠ s1.embedding_dim then
    .error (.valueError ("Embedding dim " ++ toString embeddings.cols ++
      " != store dim " ++ toString s1.embedding_dim))
  else if metadata.length ≠ embeddings.data.length then
    .error (.valueError ("metadata length (" ++ toString metadata.length ++
      ") must equal embeddings rows (" ++ toString embeddings.data.length ++ ")"))
  else
    .ok { s1 with
            index := some (s1.index.getD [] ++ normalize_vectors embeddings.data),
            metadata := s1.metadata ++ metadata }

/-- Inner product of two rows (`IndexFlatIP` similarity). -/
def dot (a b : List ℝ) : ℝ :=
  (List.zipWith (fun x y => x * y) a b).sum

/-- Ranking relation used to model faiss exact search over row ids: `i`
precedes `j` when `i`'s score is strictly larger, or the scores are equal and
`i` was inserted first.  This is the spec's "descending score, ties broken by
insertion order". -/
def rankRel (score : Nat → ℝ) (i j : Nat) : Prop :=
  score j < score i ∨ (score i = score j ∧ i ≤ j)

noncomputable instance rankRel.decidable (score : Nat → ℝ) :
    DecidableRel (rankRel score) :=
  fun _ _ => by unfold rankRel; infer_instance

/-- Model of `faiss.IndexFlatIP.search` at the library's documented interface:
exact brute-force top-`k` by inner product, returning row ids sorted by
descending score with ties in insertion order.  The `-1` padding ids faiss
emits when `k` exceeds the row count cannot arise because `search` clamps `k`
first. -/
noncomputable def faissTopIds (rows : List (List ℝ)) (q : List ℝ) (k : Nat) :
    List Nat :=
  (List.insertionSort (rankRel (fun i => dot q (rows.getD i [])))
    (List.range rows.length)).take k

/-- Model of `FaissVectorStore.search`: empty result on a missing or empty
index, `ValueError` on a query of the wrong dimension, otherwise the query is
L2-normalized, `k` is clamped to the row count, and the faiss top-`k` ids are
mapped to `(score, metadata)` pairs. -/
noncomputable def FaissVectorStore.search {M : Type} [Inhabited M]
    (s : FaissVectorStore M) (q : List ℝ) (k : Nat) :
    Except PyError (List (ℝ × M)) :=
  match s.index with
  | none => .ok []
  | some rows =>
    if rows.length = 0 then .ok []
    else if q.length ≠ s.embedding_dim then
      .error (.valueError ("Query dim " ++ toString q.length ++
        " != store dim " ++ toString s.embedding_dim))
    else
      let qn := normalizeRow q
      let k1 := min k rows.length
      .ok ((faissTopIds rows qn k1).map
        (fun i => (dot qn (rows.getD i []), s.metadata.getD i default)))

/-- On-disk artifacts, keyed by path.  Binary payloads are modelled by their
parsed contents: `faiss.write_index`/`read_index` round-trip the stored matrix
and its dimension exactly, and `json.dump`/`load` round-trip the
JSON-serializable metadata list exactly. -/
inductive Artifact (M : Type) where
  | faissIndex (d : Nat) (vectors : List (List ℝ))
  | metaJson (metadata : List M)
  | buildJson (chunk_size overlap : Int) (strategy : String)

/-- The filesystem, as a partial map from paths to artifacts. -/
def FS (M : Type) := String → Option (Artifact M)

/-- Writing a file (creating or overwriting). -/
def FS.write {M : Type} (fs : FS M) (path : String) (a : Artifact M) : FS M :=
  fun p => if p = path then some a else fs p

/-- Model of `FaissVectorStore.save`: fails with `RuntimeError` when no index
exists, otherwise writes the faiss payload to `{path}.index` and the metadata
sidecar to `{path}.meta.json`.  `path` stands for the index path stripped of
its `.index` suffix; Python's `with_suffix` arithmetic derives the same two
names in `save` and `load`. -/
def FaissVectorStore.save {M : Type} (s : FaissVectorStore M) (fs : FS M)
    (path : String) : FS M × Except PyError Unit :=
  match s.index with
  | none => (fs, .error (.runtimeError
      "No index to save; call build_index and add_embeddings first"))
  | some rows =>
    let fs1 := fs.write (path ++ ".index") (.faissIndex s.embedding_dim rows)
    let fs2 := fs1.write (path ++ ".meta.json") (.metaJson s.metadata)
    (fs2, .ok ())

/-- Model of `FaissVectorStore.load`: fails with `FileNotFoundError` when
either artifact is missing, reads both, then fails with `ValueError` when the
stored dimension disagrees with the store's `embedding_dim` or the sidecar
length disagrees with the vector row count; otherwise installs the loaded
rows and metadata.  (Python sets the fields before validating; the failed
result discards them, which no modelled claim observes.) -/
def FaissVectorStore.load {M : Type} (s : FaissVectorStore M) (fs : FS M)
    (path : String) : Except PyError (FaissVectorStore M) :=
  match fs (path ++ ".index") with
  | none => .error (.fileNotFoundError
      ("Index file not found: " ++ path ++ ".index"))
  | some ai =>
    match fs (path ++ ".meta.json") with
    | none => .error (.fileNotFoundError
        ("Metadata file not found: " ++ path ++ ".meta.json"))
    | some am =>
      match ai, am with
      | .faissIndex d rows, .metaJson ms =>
        if d ≠ s.embedding_dim then
          .error (.valueError ("Loaded index dim " ++ toString d ++
            " != store embedding_dim " ++ toString s.embedding_dim))
        else if ms.length ≠ rows.length then
          .error (.valueError ("Metadata count (" ++ toString ms.length ++
            ") != index size (" ++ toString rows.length ++ ")"))
        else .ok { s with index := some rows, metadata := ms, built := true }
      | _, _ => .error (.valueError "Failed to parse stored index artifacts")

/-- Per-page metadata attached by the pdf loader (`loader.py`): `filename`
and `page_number`. -/
structure DocMeta where
  filename : String
  page_number : Nat
deriving DecidableEq, Repr

/-- Model of `loader.Document`: one page's extracted text plus metadata. -/
structure Document where
  content : String
  metadata : DocMeta
deriving DecidableEq, Repr

/-- Metadata carried by a produced chunk (`chunker.py`): the inherited
document metadata plus `chunk_index` and `token_count`. -/
structure ChunkMeta where
  filename : String
  page_number : Nat
  chunk_index : Nat
  token_count : Nat
deriving DecidableEq, Repr

/-- Model of `chunker.Chunk`: decoded window text plus metadata. -/
structure Chunk where
  content : String
  metadata : ChunkMeta
deriving DecidableEq, Repr

/-- Model of the `while start < len(tokens)` loop in `chunk_documents`: emits
the window `tokens[start:min(start+cs, len)]`, stops after a window reaching
the end, and otherwise advances `start` by `step = chunk_size - overlap`.
`dec` is tiktoken's `decode`.  The loop terminates because `step > 0`, which
the caller's `overlap < chunk_size` guard guarantees. -/
def chunkLoop (dec : List Nat → String) (cs step : Nat) (hstep : 0 < step)
    (fn : String) (pg : Nat) (tokens : List Nat) (start cidx : Nat) :
    List Chunk :=
  if h : start < tokens.length then
    let e := min (start + cs) tokens.length
    let window := (tokens.drop start).take (e - start)
    let c : Chunk := ⟨dec window, fn, pg, cidx, window.length⟩
    if tokens.length ≤ e then [c]
    else c :: chunkLoop dec cs step hstep fn pg tokens (start + step) (cidx + 1)
  else []
termination_by tokens.length - start
decreasing_by simp_wf; omega

/-- Per-document body of `chunk_documents`: documents whose stripped text is
empty, or whose token encoding is empty, produce no chunks; otherwise the
window loop runs from `start = 0`, `chunk_index = 0`.  `enc` is tiktoken's
`encode`.  (The `getattr` guards for malformed documents are dead code for
the typed `Document` and are not modelled.) -/
def docChunks (enc : String → List Nat) (dec : List Nat → String)
    (cs step : Nat) (hstep : 0 < step) (doc : Document) : List Chunk :=
  if doc.content.trim = "" then []
  else
    let tokens := enc doc.content
    if tokens.isEmpty then []
    else chunkLoop dec cs step hstep doc.metadata.filename
      doc.metadata.page_number tokens 0 0

/-- `docChunks` with the chunking parameters still as Python ints, given the
validity guard `0 ≤ overlap < chunk_size` that `chunk_documents` established. -/
def docChunksOf (enc : String → List Nat) (dec : List Nat → String)
    (chunk_size overlap : Int) (h : 0 ≤ overlap ∧ overlap < chunk_size)
    (doc : Document) : List Chunk :=
  docChunks enc dec chunk_size.toNat (chunk_size - overlap).toNat
    (by omega) doc

/-- Model of `chunk_documents`: rejects `overlap < 0` and then
`overlap >= chunk_size` with `ValueError`, otherwise splits every document
into token windows of `chunk_size` advancing by `chunk_size - overlap`.
(The tiktoken import-failure branch is an environment error outside the
model.) -/
def chunk_documents (enc : String → List Nat) (dec : List Nat → String)
    (documents : List Document) (chunk_size overlap : Int) :
    Except PyError (List Chunk) :=
  if h0 : overlap < 0 then
    .error (.valueError "overlap must be non-negative")
  else if h1 : overlap ≥ chunk_size then
    .error (.valueError "overlap must be less than chunk_size")
  else
    .ok (documents.flatMap (docChunksOf enc dec chunk_size overlap (by omega)))

/-- One retrieval result handed to the reranker: a `score` plus the stored
chunk metadata (a dict in Python, abstract type `M` here). -/
structure RerankItem (M : Type) where
  score : ℝ
  metadata : M

/-- Python's stable `list.sort(key=lambda x: x.score, reverse=True)`:
elements are tagged with their position, sorted by descending score with
ties broken by the original position, and untagged. -/
def pyRankRel {M : Type} (a b : Nat × RerankItem M) : Prop :=
  b.2.score < a.2.score ∨ (a.2.score = b.2.score ∧ a.1 ≤ b.1)

noncomputable instance pyRankRel.decidable (M : Type) :
    DecidableRel (pyRankRel (M := M)) :=
  fun _ _ => by unfold pyRankRel; infer_instance

noncomputable def pySortByScoreDesc {M : Type} (l : List (RerankItem M)) :
    List (RerankItem M) :=
  (List.insertionSort pyRankRel l.enum).map Prod.snd

/-- Model of `Reranker.rerank`: empty candidates short-circuit to an empty
result; otherwise every `(question, text)` pair is scored by the
cross-encoder (`scoreFn`, the external `model.predict` scored pairwise, so
the `strict=True` zip never fails), each candidate's score is replaced by its
rerank score, the list is stably sorted by descending score, and the first
`top_k` entries are returned.  `getText` models `r["metadata"].get("text", "")
or ""`. -/
noncomputable def rerank {M : Type} (scoreFn : String → String → ℝ)
    (getText : M → String) (question : String) (results : List (RerankItem M))
    (top_k : Nat) : List (RerankItem M) :=
  if results.isEmpty then []
  else
    let pairs := results.map (fun r => (question, getText r.metadata))
    let scores := pairs.map (fun p => scoreFn p.1 p.2)
    let combined := (results.zip scores).map
      (fun rs => { score := rs.2, metadata := rs.1.metadata : RerankItem M })
    (pySortByScoreDesc combined).take top_k

/-- The `_IndexState` record of `main.py` (status plus counts and bookkeeping
fields). -/
structure IndexStateRec where
  status : String
  doc_count : Nat
  chunk_count : Nat
  embedding_dim : Nat
  last_indexed : String
  watching_dir : String
  last_error : String
deriving DecidableEq, Repr

/-- `IndexStats` from `indexer.py`: the result of a completed build. -/
structure IndexStats where
  doc_count : Nat
  chunk_count : Nat
  embedding_dim : Nat
  output_path : String
deriving DecidableEq, Repr

/-- The module-level mutable state of `main.py`: the published pipeline
reference, whether `_pipeline_lock` is held, and the `_IndexState` record.
The pipeline object type `P` is abstract. -/
structure AppGlobals (P : Type) where
  rag_pipeline : Option P
  lockHeld : Bool
  idx : IndexStateRec

/-- Model of `_rebuild_and_swap` as a state transformer.  The build work
(`build_index` plus the `RAGPipeline` construction, run off-thread) is an
external `outcome` parameter: `.ok (stats, p)` when both succeed, `.error e`
(the stringified exception) when any stage raises.  `now` is the timestamp
taken on success.  Returns the new globals plus whether a rebuild executed:
a request arriving while the lock is held returns immediately, and the
transient `status = "indexing"` written inside the lock is overwritten by
`"ready"`/`"error"` before the lock is released. -/
def rebuild_and_swap {P : Type} (g : AppGlobals P)
    (outcome : Except String (IndexStats × P)) (now : String) :
    AppGlobals P × Bool :=
  if g.lockHeld then (g, false)
  else
    match outcome with
    | .ok (stats, p) =>
      ({ rag_pipeline := some p
         lockHeld := false
         idx := { status := "ready"
                  doc_count := stats.doc_count
                  chunk_count := stats.chunk_count
                  embedding_dim := stats.embedding_dim
                  last_indexed := now
                  watching_dir := g.idx.watching_dir
                  last_error := "" } }, true)
    | .error e =>
      ({ g with idx := { g.idx with status := "error", last_error := e } }, true)

/-- The `_COOLDOWN` constant of `_PDFWatchHandler` (5.0 seconds);
`time.monotonic` values are idealised as rationals. -/
def COOLDOWN : ℚ := 5

/-- Model of `_PDFWatchHandler._schedule` for one matching event at time
`now`, given `_last_triggered`: if the event falls strictly within the
cooldown of the last trigger it is dropped and the state is unchanged;
otherwise `_last_triggered` is set to `now` and one rebuild request is
emitted. -/
def schedule (last_triggered now : ℚ) : ℚ × Bool :=
  if now - last_triggered < COOLDOWN then (last_triggered, false)
  else (now, true)

/-- Fold of `schedule` over a sequence of matching event times: the emitted
flag for each event. -/
def watcherEmissions (last : ℚ) : List ℚ → List Bool
  | [] => []
  | t :: ts =>
    let r := schedule last t
    r.2 :: watcherEmissions r.1 ts

/-- Fold of `schedule` over a sequence of matching event times: the times at
which a rebuild request was emitted. -/
def emittedTimes (last : ℚ) : List ℚ → List ℚ
  | [] => []
  | t :: ts =>
    let r := schedule last t
    if r.2 then t :: emittedTimes r.1 ts else emittedTimes r.1 ts

/-- The metadata dict stored per row by `build_index`
(`{**c.metadata, "text": c.content}`): at minimum `filename`, `page_number`,
`chunk_index`, `token_count`, `text`. -/
structure StoredMeta where
  filename : String
  page_number : Nat
  chunk_index : Nat
  token_count : Nat
  text : String
deriving DecidableEq, Repr

instance : Inhabited StoredMeta := ⟨⟨"", 0, 0, 0, ""⟩⟩

/-- The stored-metadata dict built from a chunk by `build_index`. -/
def StoredMeta.ofChunk (c : Chunk) : StoredMeta :=
  ⟨c.metadata.filename, c.metadata.page_number, c.metadata.chunk_index,
   c.metadata.token_count, c.content⟩

/-- Model of `indexer.build_index`.  External collaborators appear as
parameters: `documents` is the pdf loader's output for `pdf_dir` (empty for
an empty, nonexistent or unreadable source directory), `enc`/`dec` are
tiktoken, `embed` is the embedding service's batch call (returning a `numpy`
matrix) and `dim` the model's sentence-embedding dimension.  Stages: fail
with `ValueError` when no documents were loaded; chunk (propagating chunker
errors); fail with `ValueError` when no chunks were produced; embed, failing
with `RuntimeError` on an embedding-count mismatch; populate a fresh store
(propagating its errors); then — and only then — write `{path}.index`,
`{path}.meta.json` and `{path}.build.json` and return the stats.  The
`mkdir` of the output directory is not one of the three artifacts and is not
modelled. -/
noncomputable def build_index (enc : String → List Nat)
    (dec : List Nat → String) (embed : List String → NpMatrix) (dim : Nat)
    (documents : List Document) (fs : FS StoredMeta)
    (pdf_dir output_path : String) (chunk_size overlap : Int) :
    FS StoredMeta × Except PyError IndexStats :=
  if documents.isEmpty then
    (fs, .error (.valueError ("No PDFs found in '" ++ pdf_dir ++
      "'. Add PDF files and try again.")))
  else
    match chunk_documents enc dec documents chunk_size overlap with
    | .error e => (fs, .error e)
    | .ok chunks =>
      if chunks.isEmpty then
        (fs, .error (.valueError
          "No chunks produced — documents may be empty or unreadable."))
      else
        let texts := chunks.map (fun c => c.content)
        let embeddings := embed texts
        if embeddings.data.length ≠ chunks.length then
          (fs, .error (.runtimeError ("Embedding count " ++
            toString embeddings.data.length ++ " != chunk count " ++
            toString chunks.length)))
        else
          let meta_with_text := chunks.map StoredMeta.ofChunk
          match FaissVectorStore.init StoredMeta dim with
          | .error e => (fs, .error e)
          | .ok store0 =>
          match store0.add_embeddings embeddings meta_with_text with
          | .error e => (fs, .error e)
          | .ok store =>
            match store.save fs output_path with
            | (fs1, .error e) => (fs1, .error e)
            | (fs1, .ok _) =>
              let fs2 := fs1.write (output_path ++ ".build.json")
                (.buildJson chunk_size overlap "token-based (tiktoken)")
              let num_pdfs :=
                (documents.map (fun d => d.metadata.filename)).dedup.length
              (fs2, .ok ⟨num_pdfs, chunks.length, dim, output_path⟩)

/-! ## Theorems -/

/-- C3: a rebuild attempt that fails at any stage (the build `outcome` is an
error, covering load, chunk, embed, build and persist failures) leaves the
published pipeline reference unchanged, sets `status = "error"` and
`lastError` to the failure text, and keeps `docCount`, `chunkCount`,
`embeddingDim`, `lastIndexed` (and the watched directory) at their
pre-rebuild values. -/
theorem rebuild_failure_frame {P : Type} (g : AppGlobals P) (e now : String)
    (hlock : g.lockHeld = false) :
    (rebuild_and_swap g (.error e) now).1.rag_pipeline = g.rag_pipeline ∧
    (rebuild_and_swap g (.error e) now).1.idx.status = "error" ∧
    (rebuild_and_swap g (.error e) now).1.idx.last_error = e ∧
    (rebuild_and_swap g (.error e) now).1.idx.doc_count = g.idx.doc_count ∧
    (rebuild_and_swap g (.error e) now).1.idx.chunk_count = g.idx.chunk_count ∧
    (rebuild_and_swap g (.error e) now).1.idx.embedding_dim =
      g.idx.embedding_dim ∧
    (rebuild_and_swap g (.error e) now).1.idx.last_indexed =
      g.idx.last_indexed ∧
    (rebuild_and_swap g (.error e) now).1.idx.watching_dir =
      g.idx.watching_dir := by
  simp [rebuild_and_swap, hlock]

/-- C3 witness: a concrete failed rebuild keeps the published pipeline and
all counts, and records the error. -/
theorem rebuild_failure_frame_witness :
    ((⟨some 1, false, ⟨"ready", 2, 3, 4, "t0", "d", ""⟩⟩ :
        AppGlobals Nat).lockHeld = false) ∧
    (rebuild_and_swap
        (⟨some 1, false, ⟨"ready", 2, 3, 4, "t0", "d", ""⟩⟩ : AppGlobals Nat)
        (.error "boom") "t1").1.rag_pipeline = some 1 :=
  ⟨rfl, (rebuild_failure_frame
    (⟨some 1, false, ⟨"ready", 2, 3, 4, "t0", "d", ""⟩⟩ : AppGlobals Nat)
    "boom" "t1" rfl).1⟩

/-- C4: a rebuild request arriving while the rebuild lock is held is ignored
entirely — no build is started (the executed flag is `false`) and every
state field, including the published pipeline and the whole `_IndexState`
record, is left unchanged. -/
theorem rebuild_single_flight {P : Type} (g : AppGlobals P)
    (outcome : Except String (IndexStats × P)) (now : String)
    (hlock : g.lockHeld = true) :
    rebuild_and_swap g outcome now = (g, false) := by
  simp [rebuild_and_swap, hlock]

/-- C4 witness: a concrete request during an in-progress rebuild is a
no-op. -/
theorem rebuild_single_flight_witness :
    ((⟨some 1, true, ⟨"indexing", 2, 3, 4, "t0", "d", ""⟩⟩ :
        AppGlobals Nat).lockHeld = true) ∧
    rebuild_and_swap
      (⟨some 1, true, ⟨"indexing", 2, 3, 4, "t0", "d", ""⟩⟩ : AppGlobals Nat)
      (.error "x") "t1" =
      (⟨some 1, true, ⟨"indexing", 2, 3, 4, "t0", "d", ""⟩⟩, false) :=
  ⟨rfl, rebuild_single_flight
    (⟨some 1, true, ⟨"indexing", 2, 3, 4, "t0", "d", ""⟩⟩ : AppGlobals Nat)
    (.error "x") "t1" rfl⟩

/-- C9: when the loader yields no documents (empty, nonexistent or unreadable
source directory), `build_index` fails with the no-documents `ValueError` and
the filesystem is unchanged — in particular none of the three artifacts
(`.index`, `.meta.json`, `.build.json`) is created at the output path. -/
theorem build_index_no_documents (enc : String → List Nat)
    (dec : List Nat → String) (embed : List String → NpMatrix) (dim : Nat)
    (fs : FS StoredMeta) (pdf_dir output_path : String)
    (chunk_size overlap : Int) :
    build_index enc dec embed dim [] fs pdf_dir output_path
        chunk_size overlap =
      (fs, .error (.valueError ("No PDFs found in '" ++ pdf_dir ++
        "'. Add PDF files and try again."))) ∧
    (build_index enc dec embed dim [] fs pdf_dir output_path
        chunk_size overlap).1 (output_path ++ ".index") =
      fs (output_path ++ ".index") ∧
    (build_index enc dec embed dim [] fs pdf_dir output_path
        chunk_size overlap).1 (output_path ++ ".meta.json") =
      fs (output_path ++ ".meta.json") ∧
    (build_index enc dec embed dim [] fs pdf_dir output_path
        chunk_size overlap).1 (output_path ++ ".build.json") =
      fs (output_path ++ ".build.json") := by
  refine ⟨?_, ?_, ?_, ?_⟩ <;> simp [build_index]

/-- C7 counterexample: the claim that no rebuild request is emitted during a
burst whose consecutive gaps all stay below the cooldown is false.  With
`_last_triggered = 0` (the handler's initial state) and events at times
`10, 14, 18` (gaps `4 < 5`), the event at `18` — which follows its
predecessor by less than the cooldown — still emits a rebuild request,
because `_last_triggered` is only advanced on emission (it stays at `10`
through the dropped event at `14`). -/
theorem debounce_reset_counterexample :
    ¬ (∀ (last : ℚ) (ts : List ℚ),
        ts.Chain' (fun a b => b - a < COOLDOWN) →
        ∀ (i : Nat), 1 ≤ i → ∀ hi : i < (watcherEmissions last ts).length,
          (watcherEmissions last ts).get ⟨i, hi⟩ = false) := by
  intro h
  have hval : watcherEmissions 0 [10, 14, 18] = [true, false, true] := by
    simp [watcherEmissions, schedule, COOLDOWN]
    norm_num
  have hchain : ([10, 14, 18] : List ℚ).Chain' (fun a b => b - a < COOLDOWN) := by
    simp [COOLDOWN]
    norm_num
  have hlen : (2 : Nat) < (watcherEmissions 0 [10, 14, 18]).length := by
    rw [hval]; decide
  have h2 := h 0 [10, 14, 18] hchain 2 (by decide) hlen
  rw [List.get_of_eq hval] at h2
  simp at h2

/-- Head of the emitted-times list is at least one cooldown after the initial
`_last_triggered` value. -/
theorem emittedTimes_head_ge (ts : List ℚ) :
    ∀ last : ℚ, ∀ f ∈ (emittedTimes last ts).head?, last + COOLDOWN ≤ f := by
  induction ts with
  | nil => intro last f hf; simp [emittedTimes] at hf
  | cons t ts ih =>
    intro last f hf
    by_cases h : t - last < COOLDOWN
    · rw [emittedTimes] at hf
      simp only [schedule, if_pos h] at hf
      exact ih last f hf
    · rw [emittedTimes] at hf
      simp only [schedule, if_neg h] at hf
      simp at hf
      subst hf
      linarith [not_lt.mp h]

/-- C7 amended: the watcher's debounce uses a fixed window measured from the
last *emitted* trigger, not from every event.  A single event emits iff it
arrives at least `COOLDOWN` after `_last_triggered`, and `_last_triggered`
is updated only when a trigger is emitted (dropped events leave it
unchanged); consequently, over any event sequence, consecutive emitted
triggers are at least one cooldown apart — a continuous burst longer than
the cooldown keeps emitting one rebuild request per cooldown window instead
of never triggering until the events stop. -/
theorem debounce_fixed_window (last now : ℚ) (ts : List ℚ) :
    (schedule last now = (now, true) ↔ COOLDOWN ≤ now - last) ∧
    (schedule last now = (last, false) ↔ now - last < COOLDOWN) ∧
    (emittedTimes last ts).Chain' (fun a b => a + COOLDOWN ≤ b) := by
  refine ⟨?_, ?_, ?_⟩
  · constructor
    · intro h
      by_contra hc
      rw [schedule, if_pos (not_le.mp hc)] at h
      exact Bool.noConfusion (congrArg Prod.snd h)
    · intro h
      rw [schedule, if_neg (not_lt.mpr h)]
  · constructor
    · intro h
      by_contra hc
      rw [schedule, if_neg hc] at h
      exact Bool.noConfusion (congrArg Prod.snd h)
    · intro h
      rw [schedule, if_pos h]
  · induction ts generalizing last with
    | nil => simp [emittedTimes]
    | cons t ts ih =>
      by_cases h : t - last < COOLDOWN
      · rw [emittedTimes]
        simp only [schedule, if_pos h]
        exact ih last
      · rw [emittedTimes]
        simp only [schedule, if_neg h, if_pos]
        rw [List.chain'_cons']
        refine ⟨?_, ih t⟩
        intro b hb
        have := emittedTimes_head_ge ts t b hb
        linarith

/-- C7 amended witness: concretely, after a trigger at time `0`, an event at
time `7` (beyond the cooldown) emits and resets the timer, and an event at
time `3` (within the cooldown) is dropped with the timer unchanged. -/
theorem debounce_fixed_window_witness :
    (schedule 0 7 = (7, true)) ∧ (schedule 4 3 = (4, false)) :=
  ⟨(debounce_fixed_window 0 7 []).1.mpr (by norm_num [COOLDOWN]),
   (debounce_fixed_window 4 3 []).2.1.mpr (by norm_num [COOLDOWN])⟩

/-- Case analysis of `add_embeddings`: the two `ValueError` branches and the
success branch with its appended index and metadata. -/
theorem add_embeddings_cases {M : Type} (s : FaissVectorStore M)
    (emb : NpMatrix) (meta : List M)
    (hinv : s.index = none → s.metadata = []) :
    (emb.cols ≠ s.embedding_dim →
      s.add_embeddings emb meta = .error (.valueError
        ("Embedding dim " ++ toString emb.cols ++ " != store dim " ++
          toString s.embedding_dim))) ∧
    (emb.cols = s.embedding_dim → meta.length ≠ emb.data.length →
      s.add_embeddings emb meta = .error (.valueError
        ("metadata length (" ++ toString meta.length ++
          ") must equal embeddings rows (" ++ toString emb.data.length ++
          ")"))) ∧
    (emb.cols = s.embedding_dim → meta.length = emb.data.length →
      ∃ t, s.add_embeddings emb meta = .ok t ∧
        t.index = some (s.index.getD [] ++ normalize_vectors emb.data) ∧
        t.metadata = s.metadata ++ meta ∧
        t.embedding_dim = s.embedding_dim) := by
  cases hs : s.index with
  | none =>
    have hm := hinv hs
    refine ⟨?_, ?_, ?_⟩
    · intro hd
      simp [FaissVectorStore.add_embeddings, hs, FaissVectorStore.buildIndex,
        hd]
    · intro hd hc
      simp [FaissVectorStore.add_embeddings, hs, FaissVectorStore.buildIndex,
        hd, hc]
    · intro hd hc
      refine ⟨⟨s.embedding_dim, some (normalize_vectors emb.data), meta,
        true⟩, ?_, ?_, ?_, ?_⟩
      · simp [FaissVectorStore.add_embeddings, hs,
          FaissVectorStore.buildIndex, hd, hc]
      · simp [hs]
      · simp [hm]
      · rfl
  | some rows =>
    refine ⟨?_, ?_, ?_⟩
    · intro hd
      simp [FaissVectorStore.add_embeddings, hs, hd]
    · intro hd hc
      simp [FaissVectorStore.add_embeddings, hs, hd, hc]
    · intro hd hc
      refine ⟨⟨s.embedding_dim, some (rows ++ normalize_vectors emb.data),
        s.metadata ++ meta, s.built⟩, ?_, ?_, ?_, ?_⟩
      · simp [FaissVectorStore.add_embeddings, hs, hd, hc]
      · simp [hs]
      · rfl
      · rfl

/-- C8: `add_embeddings` fails with the dimension-mismatch `ValueError`
whenever the batch's column count differs from the store's fixed dimension,
fails with the count-mismatch `ValueError` whenever the metadata length
differs from the batch's row count, and otherwise succeeds, appending every
(normalized) row to the index and every metadata entry to the sidecar list,
in order.  The hypothesis `hinv` (no index implies no metadata) holds for
every reachable store; it makes the auto-`build_index` reset of a fresh
store's metadata agree with plain appending.  The spec's taxonomy labels
both `ValueError`s `DimensionMismatch`. -/
theorem add_embeddings_spec {M : Type} (s : FaissVectorStore M)
    (emb : NpMatrix) (meta : List M)
    (hinv : s.index = none → s.metadata = []) :
    (emb.cols ≠ s.embedding_dim →
      s.add_embeddings emb meta = .error (.valueError
        ("Embedding dim " ++ toString emb.cols ++ " != store dim " ++
          toString s.embedding_dim))) ∧
    (emb.cols = s.embedding_dim → meta.length ≠ emb.data.length →
      s.add_embeddings emb meta = .error (.valueError
        ("metadata length (" ++ toString meta.length ++
          ") must equal embeddings rows (" ++ toString emb.data.length ++
          ")"))) ∧
    (emb.cols = s.embedding_dim → meta.length = emb.data.length →
      ∃ t, s.add_embeddings emb meta = .ok t ∧
        t.index = some (s.index.getD [] ++ normalize_vectors emb.data) ∧
        t.metadata = s.metadata ++ meta ∧
        t.embedding_dim = s.embedding_dim) :=
  add_embeddings_cases s emb meta hinv

/-- C8 witness: the spec's own example — a 3-column batch added to a
4-dimensional store fails with the dimension-mismatch `ValueError`. -/
theorem add_embeddings_spec_witness :
    ((3 : Nat) ≠ 4) ∧
    (⟨4, none, [], false⟩ : FaissVectorStore Nat).add_embeddings
        ⟨3, [[1, 2, 3]]⟩ [7] =
      .error (.valueError ("Embedding dim " ++ toString (3 : Nat) ++
        " != store dim " ++ toString (4 : Nat))) :=
  ⟨by decide,
   (add_embeddings_spec (⟨4, none, [], false⟩ : FaissVectorStore Nat)
      ⟨3, [[1, 2, 3]]⟩ [7] (fun _ => rfl)).1 (by decide)⟩

theorem pyRankRel_total (M : Type) : IsTotal (Nat × RerankItem M) pyRankRel := by
  constructor
  intro a b
  rcases lt_trichotomy a.2.score b.2.score with h | h | h
  · exact Or.inr (Or.inl h)
  · rcases Nat.le_total a.1 b.1 with h1 | h1
    · exact Or.inl (Or.inr ⟨h, h1⟩)
    · exact Or.inr (Or.inr ⟨h.symm, h1⟩)
  · exact Or.inl (Or.inl h)

theorem pyRankRel_trans (M : Type) : IsTrans (Nat × RerankItem M) pyRankRel := by
  constructor
  intro a b c hab hbc
  rcases hab with h1 | ⟨h1, h1i⟩ <;> rcases hbc with h2 | ⟨h2, h2i⟩
  · exact Or.inl (h2.trans h1)
  · exact Or.inl (by rw [← h2]; exact h1)
  · exact Or.inl (by rw [h1]; exact h2)
  · exact Or.inr ⟨h1.trans h2, h1i.trans h2i⟩

/-- The stable descending sort permutes its input. -/
theorem pySortByScoreDesc_perm {M : Type} (l : List (RerankItem M)) :
    List.Perm (pySortByScoreDesc l) l := by
  have h1 : List.Perm (List.insertionSort pyRankRel l.enum) l.enum :=
    List.perm_insertionSort _ _
  have h2 := h1.map Prod.snd
  rw [List.enum_map_snd] at h2
  exact h2

/-- C5: `rerank` returns at most `top_k` results, every returned result
carries the metadata of some input candidate (re-ranking introduces no
fragment outside the retrieved candidate set), the results are sorted by
non-increasing cross-encoder score, and an empty candidate list yields an
empty result. -/
theorem rerank_spec {M : Type} (scoreFn : String → String → ℝ)
    (getText : M → String) (question : String)
    (results : List (RerankItem M)) (top_k : Nat) :
    (rerank scoreFn getText question results top_k).length ≤ top_k ∧
    (∀ r ∈ rerank scoreFn getText question results top_k,
      ∃ c ∈ results, r.metadata = c.metadata) ∧
    (rerank scoreFn getText question results top_k).Pairwise
      (fun a b => b.score ≤ a.score) ∧
    (results = [] → rerank scoreFn getText question results top_k = []) := by
  by_cases hres : results.isEmpty
  · rw [List.isEmpty_iff] at hres
    subst hres
    refine ⟨?_, ?_, ?_, fun _ => ?_⟩ <;> simp [rerank]
  · have hre : rerank scoreFn getText question results top_k =
        (pySortByScoreDesc ((results.zip
          ((results.map (fun r => (question, getText r.metadata))).map
            (fun p => scoreFn p.1 p.2))).map
          (fun rs => { score := rs.2, metadata := rs.1.metadata :
            RerankItem M }))).take top_k := by
      rw [rerank, if_neg hres]
    set combined := (results.zip
      ((results.map (fun r => (question, getText r.metadata))).map
        (fun p => scoreFn p.1 p.2))).map
      (fun rs => { score := rs.2, metadata := rs.1.metadata :
        RerankItem M }) with hcomb
    refine ⟨?_, ?_, ?_, ?_⟩
    · rw [hre]
      exact List.length_take_le _ _
    · intro r hr
      rw [hre] at hr
      have hr2 : r ∈ pySortByScoreDesc combined :=
        List.take_subset _ _ hr
      have hr3 : r ∈ combined := (pySortByScoreDesc_perm combined).mem_iff.mp hr2
      rw [hcomb] at hr3
      rcases List.mem_map.mp hr3 with ⟨rs, hrs, hreq⟩
      refine ⟨rs.1, (List.of_mem_zip hrs).1, ?_⟩
      rw [← hreq]
    · rw [hre]
      haveI := pyRankRel_total M
      haveI := pyRankRel_trans M
      have hsorted : (List.insertionSort pyRankRel combined.enum).Pairwise
          pyRankRel := List.sorted_insertionSort _ _
      have hmapped : (pySortByScoreDesc combined).Pairwise
          (fun a b => b.score ≤ a.score) := by
        rw [pySortByScoreDesc, List.pairwise_map]
        refine hsorted.imp ?_
        intro a b hab
        rcases hab with h | ⟨h, _⟩
        · exact le_of_lt h
        · exact le_of_eq h.symm
      exact hmapped.sublist (List.take_sublist _ _)
    · intro h
      subst h
      simp at hres

/-- C5 witness: a concrete rerank of two candidates returns at most one
result, drawn from the candidate set, sorted. -/
theorem rerank_spec_witness :
    (rerank (fun _ _ => 0) (fun m => m) "q"
        [⟨1, "a"⟩, ⟨2, "b"⟩] 1).length ≤ 1 ∧
    (∀ r ∈ rerank (fun _ _ => 0) (fun m => m) "q" [⟨1, "a"⟩, ⟨2, "b"⟩] 1,
      ∃ c ∈ ([⟨1, "a"⟩, ⟨2, "b"⟩] : List (RerankItem String)),
        r.metadata = c.metadata) :=
  ⟨(rerank_spec (fun _ _ => 0) (fun m => m) "q" [⟨1, "a"⟩, ⟨2, "b"⟩] 1).1,
   (rerank_spec (fun _ _ => 0) (fun m => m) "q" [⟨1, "a"⟩, ⟨2, "b"⟩] 1).2.1⟩

theorem rankRel_total (score : Nat → ℝ) : IsTotal Nat (rankRel score) := by
  constructor
  intro i j
  rcases lt_trichotomy (score i) (score j) with h | h | h
  · exact Or.inr (Or.inl h)
  · rcases Nat.le_total i j with h1 | h1
    · exact Or.inl (Or.inr ⟨h, h1⟩)
    · exact Or.inr (Or.inr ⟨h.symm, h1⟩)
  · exact Or.inl (Or.inl h)

theorem rankRel_trans (score : Nat → ℝ) : IsTrans Nat (rankRel score) := by
  constructor
  intro a b c hab hbc
  rcases hab with h1 | ⟨h1, h1i⟩ <;> rcases hbc with h2 | ⟨h2, h2i⟩
  · exact Or.inl (h2.trans h1)
  · exact Or.inl (by rw [← h2]; exact h1)
  · exact Or.inl (by rw [h1]; exact h2)
  · exact Or.inr ⟨h1.trans h2, h1i.trans h2i⟩

/-- C1: for a store whose index holds `rows` and aligned metadata, a query of
the store's dimension and any `k ≥ 1`: on zero rows `search` returns the
empty list; otherwise it returns exactly `min k rows.length` `(score,
metadata)` pairs — presented as the image of a duplicate-free id list `ids`
drawn from the rows, so each pair's score is the normalized query's inner
product with its row and each pair's metadata is the metadata stored at that
row — whose scores are non-increasing, with equal scores ordered by
insertion (row) order (`i < j`). -/
theorem search_topk {M : Type} [Inhabited M] (s : FaissVectorStore M)
    (rows : List (List ℝ)) (hidx : s.index = some rows)
    (hmd : s.metadata.length = rows.length)
    (q : List ℝ) (hq : q.length = s.embedding_dim) (k : Nat) (hk : 1 ≤ k) :
    (rows.length = 0 → s.search q k = .ok []) ∧
    (0 < rows.length → ∃ ids : List Nat,
      s.search q k = .ok (ids.map (fun i =>
        (dot (normalizeRow q) (rows.getD i []), s.metadata.getD i default))) ∧
      ids.length = min k rows.length ∧
      (∀ i ∈ ids, i < rows.length) ∧
      ids.Pairwise (fun i j =>
        dot (normalizeRow q) (rows.getD j []) <
            dot (normalizeRow q) (rows.getD i []) ∨
          (dot (normalizeRow q) (rows.getD i []) =
              dot (normalizeRow q) (rows.getD j []) ∧ i < j))) := by
  constructor
  · intro hzero
    rw [FaissVectorStore.search, hidx]
    simp [hzero]
  · intro hpos
    refine ⟨faissTopIds rows (normalizeRow q) (min k rows.length), ?_, ?_, ?_,
      ?_⟩
    · rw [FaissVectorStore.search, hidx]
      simp [hq, Nat.pos_iff_ne_zero.mp hpos]
    · rw [faissTopIds, List.length_take, List.length_insertionSort,
        List.length_range, min_assoc, min_self]
    · intro i hi
      have h1 : i ∈ List.insertionSort
          (rankRel (fun i => dot (normalizeRow q) (rows.getD i [])))
          (List.range rows.length) := List.take_subset _ _ hi
      rw [List.mem_insertionSort, List.mem_range] at h1
      exact h1
    · set score := fun i => dot (normalizeRow q) (rows.getD i []) with hscore
      haveI := rankRel_total score
      haveI := rankRel_trans score
      have hsorted : (List.insertionSort (rankRel score)
          (List.range rows.length)).Pairwise (rankRel score) :=
        List.sorted_insertionSort _ _
      have hnodup : (List.insertionSort (rankRel score)
          (List.range rows.length)).Nodup :=
        (List.perm_insertionSort _ _).nodup_iff.mpr (List.nodup_range _)
      have hcomb := (hsorted.and hnodup).sublist
        (List.take_sublist (min k rows.length) _)
      refine hcomb.imp ?_
      intro i j hij
      rcases hij with ⟨h | ⟨heq, hle⟩, hne⟩
      · exact Or.inl h
      · exact Or.inr ⟨heq, lt_of_le_of_ne hle hne⟩

/-- C1 witness: a concrete two-row store with `k = 5` (clamped to two
results). -/
theorem search_topk_witness :
    ∃ ids : List Nat,
      (⟨2, some [[(1:ℝ), 0], [0, 1]], [10, 20], false⟩ :
          FaissVectorStore Nat).search [1, 0] 5 =
        .ok (ids.map (fun i =>
          (dot (normalizeRow [1, 0])
            (([[(1:ℝ), 0], [0, 1]]).getD i []),
           ([10, 20] : List Nat).getD i default))) ∧
      ids.length = min 5 ([[(1:ℝ), 0], [0, 1]]).length ∧
      (∀ i ∈ ids, i < ([[(1:ℝ), 0], [0, 1]]).length) ∧
      ids.Pairwise (fun i j =>
        dot (normalizeRow [1, 0]) (([[(1:ℝ), 0], [0, 1]]).getD j []) <
            dot (normalizeRow [1, 0]) (([[(1:ℝ), 0], [0, 1]]).getD i []) ∨
          (dot (normalizeRow [1, 0]) (([[(1:ℝ), 0], [0, 1]]).getD i []) =
              dot (normalizeRow [1, 0]) (([[(1:ℝ), 0], [0, 1]]).getD j []) ∧
            i < j)) :=
  (search_topk (⟨2, some [[(1:ℝ), 0], [0, 1]], [10, 20], false⟩ :
      FaissVectorStore Nat) [[(1:ℝ), 0], [0, 1]] rfl rfl [1, 0] rfl 5
    (by decide)).2 (by decide)

/-- Appending distinct tails to the same string yields distinct strings. -/
theorem string_append_ne (p : String) {a b : String} (h : a ≠ b) :
    p ++ a ≠ p ++ b := by
  intro hc
  apply h
  have hd := congrArg String.data hc
  simp only [String.data_append] at hd
  exact String.ext (List.append_cancel_left hd)

/-- `search` depends only on the dimension, index rows and metadata — not on
the `_built` flag. -/
theorem search_congr {M : Type} [Inhabited M] (s t : FaissVectorStore M)
    (hd : s.embedding_dim = t.embedding_dim) (hi : s.index = t.index)
    (hm : s.metadata = t.metadata) (q : List ℝ) (k : Nat) :
    s.search q k = t.search q k := by
  obtain ⟨d1, i1, m1, b1⟩ := s
  obtain ⟨d2, i2, m2, b2⟩ := t
  simp only at hd hi hm
  subst hd hi hm
  rfl

/-- A store produced by `add_embeddings` on a well-formed store has an index
whose metadata list is aligned with its rows, and an unchanged dimension. -/
theorem add_embeddings_shape {M : Type} {s0 s : FaissVectorStore M}
    {emb : NpMatrix} {meta : List M}
    (hwf : s0.index = none → s0.metadata = [])
    (hlen : ∀ rows0, s0.index = some rows0 →
      s0.metadata.length = rows0.length)
    (hadd : s0.add_embeddings emb meta = .ok s) :
    ∃ rows, s.index = some rows ∧ s.metadata.length = rows.length ∧
      s.embedding_dim = s0.embedding_dim := by
  have h := (add_embeddings_cases s0 emb meta hwf).2.2
  rw [FaissVectorStore.add_embeddings] at hadd
  cases hs : s0.index with
  | none =>
    rw [hs] at hadd
    simp only at hadd
    by_cases h1 : emb.cols = s0.embedding_dim
    · by_cases h2 : meta.length = emb.data.length
      · rcases h h1 h2 with ⟨t, ht, hti, htm, htd⟩
        rw [FaissVectorStore.add_embeddings, hs] at ht
        simp only at ht
        rw [hadd] at ht
        rcases Except.ok.inj ht with rfl
        refine ⟨s0.index.getD [] ++ normalize_vectors emb.data, hti, ?_, htd⟩
        rw [htm, hs]
        simp [normalize_vectors, hwf hs, h2]
      · rw [if_neg (by simpa [FaissVectorStore.buildIndex] using h1)] at hadd
        rw [if_pos (by simpa using h2)] at hadd
        exact absurd hadd (by simp)
    · rw [if_pos (by simpa [FaissVectorStore.buildIndex] using h1)] at hadd
      exact absurd hadd (by simp)
  | some rows0 =>
    rw [hs] at hadd
    simp only at hadd
    by_cases h1 : emb.cols = s0.embedding_dim
    · by_cases h2 : meta.length = emb.data.length
      · rcases h h1 h2 with ⟨t, ht, hti, htm, htd⟩
        rw [FaissVectorStore.add_embeddings, hs] at ht
        simp only at ht
        rw [hadd] at ht
        rcases Except.ok.inj ht with rfl
        refine ⟨s0.index.getD [] ++ normalize_vectors emb.data, hti, ?_, htd⟩
        rw [htm, hs]
        simp [normalize_vectors, hlen rows0 hs, h2]
      · rw [if_neg (by simpa using h1), if_pos (by simpa using h2)] at hadd
        exact absurd hadd (by simp)
    · rw [if_pos (by simpa using h1)] at hadd
      exact absurd hadd (by simp)

/-- C2: a store populated by `add_embeddings` (from any reachable,
well-formed starting store), saved to a path and loaded into a fresh store
of the same expected dimension, yields a store whose `search` results equal
the original's exactly — same scores (hence within any tolerance, in
particular `1e-5`) and the same metadata in the same order — for every query
vector and every `k`. -/
theorem save_load_roundtrip {M : Type} [Inhabited M]
    (s0 : FaissVectorStore M) (emb : NpMatrix) (meta : List M)
    (s : FaissVectorStore M)
    (hwf : s0.index = none → s0.metadata = [])
    (hlen : ∀ rows0, s0.index = some rows0 →
      s0.metadata.length = rows0.length)
    (hdim : 1 ≤ s0.embedding_dim)
    (hadd : s0.add_embeddings emb meta = .ok s)
    (fs : FS M) (path : String) :
    ∃ fresh, FaissVectorStore.init M s.embedding_dim = .ok fresh ∧
    ∃ fs1, s.save fs path = (fs1, .ok ()) ∧
    ∃ s1, fresh.load fs1 path = .ok s1 ∧
    ∀ q k, s1.search q k = s.search q k := by
  rcases add_embeddings_shape hwf hlen hadd with ⟨rows, hrows, hml, hdeq⟩
  have hd1 : 1 ≤ s.embedding_dim := by rw [hdeq]; exact hdim
  refine ⟨⟨s.embedding_dim, none, [], false⟩, ?_, ?_⟩
  · rw [FaissVectorStore.init, if_neg (by omega)]
  have hsave : s.save fs path =
      ((fs.write (path ++ ".index")
          (.faissIndex s.embedding_dim rows)).write (path ++ ".meta.json")
        (.metaJson s.metadata), .ok ()) := by
    rw [FaissVectorStore.save, hrows]
  refine ⟨_, hsave, ?_⟩
  have hne : path ++ ".index" ≠ path ++ ".meta.json" :=
    string_append_ne path (by decide)
  have hload : FaissVectorStore.load
      (⟨s.embedding_dim, none, [], false⟩ : FaissVectorStore M)
      ((fs.write (path ++ ".index")
          (.faissIndex s.embedding_dim rows)).write (path ++ ".meta.json")
        (.metaJson s.metadata)) path =
      .ok ⟨s.embedding_dim, some rows, s.metadata, true⟩ := by
    rw [FaissVectorStore.load]
    simp only [FS.write, if_pos rfl, if_neg hne]
    simp [hml]
  refine ⟨⟨s.embedding_dim, some rows, s.metadata, true⟩, hload, ?_⟩
  intro q k
  exact search_congr ⟨s.embedding_dim, some rows, s.metadata, true⟩ s rfl
    hrows.symm rfl q k

/-- C2 witness: a concrete one-row store round-trips through save/load with
identical search behaviour. -/
theorem save_load_roundtrip_witness :
    ∃ fresh, FaissVectorStore.init Nat 2 = .ok fresh ∧
    ∃ fs1, (⟨2, some [[(1:ℝ), 0]], [7], true⟩ : FaissVectorStore Nat).save
        (fun _ => none) "storage/doc_index" = (fs1, .ok ()) ∧
    ∃ s1, fresh.load fs1 "storage/doc_index" = .ok s1 ∧
    ∀ q k, s1.search q k =
      (⟨2, some [[(1:ℝ), 0]], [7], true⟩ : FaissVectorStore Nat).search q k := by
  have hnorm : normalizeRow [(1:ℝ), 0] = [1, 0] := by
    have h1 : rowNorm [(1:ℝ), 0] = 1 := by
      rw [rowNorm]
      norm_num
    rw [normalizeRow, h1]
    norm_num
  have hadd : (⟨2, none, [], false⟩ : FaissVectorStore Nat).add_embeddings
      ⟨2, [[(1:ℝ), 0]]⟩ [7] = .ok ⟨2, some [[(1:ℝ), 0]], [7], true⟩ := by
    rw [FaissVectorStore.add_embeddings]
    simp [FaissVectorStore.buildIndex, normalize_vectors, hnorm]
  exact save_load_roundtrip (⟨2, none, [], false⟩ : FaissVectorStore Nat)
    ⟨2, [[(1:ℝ), 0]]⟩ [7] ⟨2, some [[(1:ℝ), 0]], [7], true⟩
    (fun _ => rfl) (fun rows0 h => by simp at h) (by decide) hadd
    (fun _ => none) "storage/doc_index"

/-- An all-zero row has zero norm, so its divisor is substituted by `1` and
the row passes through `normalizeRow` unchanged. -/
theorem normalizeRow_all_zero {v : List ℝ} (hz : ∀ a ∈ v, a = 0) :
    normalizeRow v = v := by
  have hS : (v.map (fun x => x ^ 2)).sum = 0 := by
    apply List.sum_eq_zero
    intro y hy
    rcases List.mem_map.mp hy with ⟨a, ha, rfl⟩
    rw [hz a ha]
    ring
  have hn : rowNorm v = 0 := by rw [rowNorm, hS, Real.sqrt_zero]
  simp only [normalizeRow]
  rw [if_pos hn]
  simp

/-- The inner product with an all-zero left argument is zero. -/
theorem dot_zero_left : ∀ (a b : List ℝ), (∀ x ∈ a, x = 0) → dot a b = 0
  | [], _, _ => rfl
  | _ :: _, [], _ => rfl
  | x :: xs, y :: ys, hz => by
    have hx : x = 0 := hz x (by simp)
    have hxs : ∀ z ∈ xs, z = 0 := fun z hzz => hz z (by simp [hzz])
    show (List.zipWith (fun u w => u * w) (x :: xs) (y :: ys)).sum = 0
    rw [List.zipWith_cons_cons, List.sum_cons, hx, zero_mul, zero_add]
    exact dot_zero_left xs ys hxs

/-- Unfolding `search` on a store with a present index. -/
theorem search_some {M : Type} [Inhabited M] (s : FaissVectorStore M)
    (rows : List (List ℝ)) (h : s.index = some rows) (q : List ℝ) (k : Nat) :
    s.search q k =
      (if rows.length = 0 then .ok []
       else if q.length ≠ s.embedding_dim then
         .error (.valueError ("Query dim " ++ toString q.length ++
           " != store dim " ++ toString s.embedding_dim))
       else .ok ((faissTopIds rows (normalizeRow q) (min k rows.length)).map
         (fun i => (dot (normalizeRow q) (rows.getD i []),
           s.metadata.getD i default)))) := by
  rw [FaissVectorStore.search, h]

/-- C10: vector normalization is total in the presence of zero vectors.
`_normalize_vectors` acts rowwise; for every row the effective divisor is
nonzero (a zero norm is substituted by `1` before dividing, so
`add_embeddings` and `search` never divide by zero); every row of nonzero L2
norm is scaled to unit norm; every all-zero row is returned unchanged; and an
all-zero query vector yields zero similarity scores from `search` rather than
an exception. -/
theorem normalize_vectors_total (x : List (List ℝ)) {M : Type} [Inhabited M]
    (s : FaissVectorStore M) (q : List ℝ) (k : Nat) (res : List (ℝ × M)) :
    normalize_vectors x = x.map normalizeRow ∧
    (∀ v ∈ x, (if rowNorm v = 0 then (1 : ℝ) else rowNorm v) ≠ 0) ∧
    (∀ v ∈ x, rowNorm v ≠ 0 → rowNorm (normalizeRow v) = 1) ∧
    (∀ v ∈ x, (∀ a ∈ v, a = 0) → normalizeRow v = v) ∧
    ((∀ a ∈ q, a = 0) → s.search q k = .ok res → ∀ p ∈ res, p.1 = 0) := by
  refine ⟨rfl, ?_, ?_, ?_, ?_⟩
  · intro v _
    by_cases hn : rowNorm v = 0
    · rw [if_pos hn]; norm_num
    · rw [if_neg hn]; exact hn
  · intro v _ hn
    have hS : 0 ≤ (v.map (fun x => x ^ 2)).sum := by
      apply List.sum_nonneg
      intro y hy
      rcases List.mem_map.mp hy with ⟨a, _, rfl⟩
      positivity
    have hS0 : (v.map (fun x => x ^ 2)).sum ≠ 0 := by
      intro h
      exact hn (by rw [rowNorm, h, Real.sqrt_zero])
    simp only [normalizeRow]
    rw [if_neg hn, rowNorm, List.map_map]
    have hfun : ((fun x => x ^ 2) ∘ fun x => x / rowNorm v) =
        fun x => x ^ 2 * ((rowNorm v) ^ 2)⁻¹ := by
      funext y
      show (y / rowNorm v) ^ 2 = y ^ 2 * (rowNorm v ^ 2)⁻¹
      rw [div_pow, div_eq_mul_inv]
    rw [hfun, List.sum_map_mul_right]
    have hsq : rowNorm v ^ 2 = (v.map (fun x => x ^ 2)).sum := by
      rw [rowNorm]
      exact Real.sq_sqrt hS
    rw [hsq, mul_inv_cancel₀ hS0, Real.sqrt_one]
  · intro v _ hz
    exact normalizeRow_all_zero hz
  · intro hq hsearch p hp
    have hqn : normalizeRow q = q := normalizeRow_all_zero hq
    cases hsi : s.index with
    | none =>
      rw [FaissVectorStore.search, hsi] at hsearch
      simp only [Except.ok.injEq] at hsearch
      rw [← hsearch] at hp
      simp at hp
    | some rows =>
      rw [search_some s rows hsi] at hsearch
      by_cases h0 : rows.length = 0
      · rw [if_pos h0] at hsearch
        simp only [Except.ok.injEq] at hsearch
        rw [← hsearch] at hp
        simp at hp
      · rw [if_neg h0] at hsearch
        by_cases h1 : q.length ≠ s.embedding_dim
        · rw [if_pos h1] at hsearch
          exact absurd hsearch (by simp)
        · rw [if_neg h1] at hsearch
          simp only [Except.ok.injEq] at hsearch
          rw [← hsearch] at hp
          rcases List.mem_map.mp hp with ⟨i, _, rfl⟩
          rw [hqn]
          exact dot_zero_left q _ hq

/-- C10 witness: the all-zero row `[0, 0]` passes through unchanged, and the
row `[3, 4]` (norm `5 ≠ 0`) is scaled to unit norm. -/
theorem normalize_vectors_total_witness :
    ((∀ a ∈ [(0 : ℝ), 0], a = 0) ∧ normalizeRow [(0 : ℝ), 0] = [0, 0]) ∧
    (rowNorm [(3 : ℝ), 4] ≠ 0 ∧ rowNorm (normalizeRow [(3 : ℝ), 4]) = 1) := by
  have hz : ∀ a ∈ [(0 : ℝ), 0], a = 0 := by
    intro a ha
    rcases List.mem_cons.mp ha with rfl | ha
    · rfl
    · rcases List.mem_cons.mp ha with rfl | ha
      · rfl
      · simp at ha
  have h5 : rowNorm [(3 : ℝ), 4] = 5 := by
    rw [rowNorm]
    norm_num
    rw [show (25 : ℝ) = 5 ^ 2 by norm_num, Real.sqrt_sq (by norm_num)]
  have hn : rowNorm [(3 : ℝ), 4] ≠ 0 := by rw [h5]; norm_num
  constructor
  · exact ⟨hz, (normalize_vectors_total [[(0 : ℝ), 0]] (M := Nat)
      ⟨1, none, [], false⟩ [] 0 []).2.2.2.1 [(0 : ℝ), 0] (by simp) hz⟩
  · exact ⟨hn, (normalize_vectors_total [[(3 : ℝ), 4]] (M := Nat)
      ⟨1, none, [], false⟩ [] 0 []).2.2.1 [(3 : ℝ), 4] (by simp) hn⟩

/-- One-step unfolding of the chunking loop. -/
theorem chunkLoop_eq (dec : List Nat → String) (cs step : Nat)
    (hstep : 0 < step) (fn : String) (pg : Nat) (tokens : List Nat)
    (start cidx : Nat) :
    chunkLoop dec cs step hstep fn pg tokens start cidx =
      if start < tokens.length then
        (if tokens.length ≤ min (start + cs) tokens.length then
          [⟨dec ((tokens.drop start).take
              (min (start + cs) tokens.length - start)), fn, pg, cidx,
            ((tokens.drop start).take
              (min (start + cs) tokens.length - start)).length⟩]
        else
          ⟨dec ((tokens.drop start).take
              (min (start + cs) tokens.length - start)), fn, pg, cidx,
            ((tokens.drop start).take
              (min (start + cs) tokens.length - start)).length⟩ ::
            chunkLoop dec cs step hstep fn pg tokens (start + step) (cidx + 1))
      else [] := by
  rw [chunkLoop]
  simp only [dite_eq_ite]

/-- Every chunk the loop emits from position `start` is the window starting
`j` steps later, with sequential indices; every window except possibly the
loop's last has exactly `cs` tokens. -/
theorem chunkLoop_get (dec : List Nat → String) (cs step : Nat)
    (hstep : 0 < step) (fn : String) (pg : Nat) (tokens : List Nat) :
    ∀ (n start cidx : Nat), tokens.length - start ≤ n →
      ∀ j, j < (chunkLoop dec cs step hstep fn pg tokens start cidx).length →
        (chunkLoop dec cs step hstep fn pg tokens start cidx).get? j =
          some ⟨dec ((tokens.drop (start + j * step)).take cs), fn, pg,
            cidx + j, ((tokens.drop (start + j * step)).take cs).length⟩ ∧
        (j + 1 <
            (chunkLoop dec cs step hstep fn pg tokens start cidx).length →
          ((tokens.drop (start + j * step)).take cs).length = cs) := by
  intro n
  induction n with
  | zero =>
    intro start cidx hle j hj
    have he : chunkLoop dec cs step hstep fn pg tokens start cidx = [] := by
      rw [chunkLoop_eq, if_neg (by omega)]
    rw [he] at hj
    simp at hj
  | succ n ih =>
    intro start cidx hle j hj
    by_cases h : start < tokens.length
    · by_cases hc : tokens.length ≤ start + cs
      · have he : chunkLoop dec cs step hstep fn pg tokens start cidx =
            [⟨dec (tokens.drop start), fn, pg, cidx,
              (tokens.drop start).length⟩] := by
          rw [chunkLoop_eq, if_pos h, Nat.min_eq_right hc,
            if_pos (Nat.le_refl _)]
          rw [List.take_of_length_le (by rw [List.length_drop])]
        have hwin : (tokens.drop (start + j * step)).take cs =
            tokens.drop start := by
          rw [he] at hj
          simp only [List.length_cons, List.length_nil] at hj
          have hj0 : j = 0 := by omega
          subst hj0
          simp only [Nat.zero_mul, Nat.add_zero]
          exact List.take_of_length_le (by rw [List.length_drop]; omega)
        rw [he] at hj ⊢
        simp only [List.length_cons, List.length_nil] at hj
        have hj0 : j = 0 := by omega
        subst hj0
        refine ⟨?_, ?_⟩
        · simp only [List.get?_cons_zero, Nat.zero_mul, Nat.add_zero]
          rw [List.take_of_length_le (by rw [List.length_drop]; omega)]
        · intro habs
          simp at habs
      · have hcs : start + cs ≤ tokens.length := by omega
        have he : chunkLoop dec cs step hstep fn pg tokens start cidx =
            ⟨dec ((tokens.drop start).take cs), fn, pg, cidx,
              ((tokens.drop start).take cs).length⟩ ::
            chunkLoop dec cs step hstep fn pg tokens (start + step)
              (cidx + 1) := by
          rw [chunkLoop_eq, if_pos h, Nat.min_eq_left hcs, if_neg hc,
            Nat.add_sub_cancel_left]
        rw [he] at hj ⊢
        cases j with
        | zero =>
          refine ⟨?_, ?_⟩
          · simp only [List.get?_cons_zero, Nat.zero_mul, Nat.add_zero]
          · intro _
            simp only [Nat.zero_mul, Nat.add_zero, List.length_take,
              List.length_drop]
            omega
        | succ j' =>
          have hlen' : tokens.length - (start + step) ≤ n := by omega
          have hj' : j' < (chunkLoop dec cs step hstep fn pg tokens
              (start + step) (cidx + 1)).length := by
            simp only [List.length_cons] at hj
            omega
          have hih := ih (start + step) (cidx + 1) hlen' j' hj'
          have harith : start + step + j' * step = start + (j' + 1) * step :=
            by ring
          have harith2 : cidx + 1 + j' = cidx + (j' + 1) := by ring
          rw [harith, harith2] at hih
          refine ⟨?_, ?_⟩
          · rw [List.get?_cons_succ]
            exact hih.1
          · intro hlt
            apply hih.2
            simp only [List.length_cons] at hlt
            omega
    · have he : chunkLoop dec cs step hstep fn pg tokens start cidx = [] := by
        rw [chunkLoop_eq, if_neg h]
      rw [he] at hj
      simp at hj

/-- C6: `chunk_documents` rejects `overlap < 0` and `overlap >= chunk_size`
with a `ValueError`; for valid parameters it splits each document's token
sequence into windows advancing by `chunk_size - overlap` tokens — the
`j`-th fragment of a document is the window starting at token
`j * (chunk_size - overlap)` — with `chunk_index` sequential from `0` within
each document, `token_count` equal to the window size, the document's
`filename` and `page_number` inherited by every fragment, and every fragment
except possibly a document's last having exactly `chunk_size` tokens. -/
theorem chunk_documents_spec (enc : String → List Nat)
    (dec : List Nat → String) (documents : List Document)
    (chunk_size overlap : Int) :
    (overlap < 0 → chunk_documents enc dec documents chunk_size overlap =
      .error (.valueError "overlap must be non-negative")) ∧
    (0 ≤ overlap → chunk_size ≤ overlap →
      chunk_documents enc dec documents chunk_size overlap =
      .error (.valueError "overlap must be less than chunk_size")) ∧
    (∀ h : 0 ≤ overlap ∧ overlap < chunk_size,
      chunk_documents enc dec documents chunk_size overlap =
        .ok (documents.flatMap (docChunksOf enc dec chunk_size overlap h)) ∧
      ∀ doc ∈ documents, ∀ j,
        j < (docChunksOf enc dec chunk_size overlap h doc).length →
        (docChunksOf enc dec chunk_size overlap h doc).get? j =
          some ⟨dec (((enc doc.content).drop
              (j * (chunk_size - overlap).toNat)).take chunk_size.toNat),
            doc.metadata.filename, doc.metadata.page_number, j,
            (((enc doc.content).drop
              (j * (chunk_size - overlap).toNat)).take
                chunk_size.toNat).length⟩ ∧
        (j + 1 < (docChunksOf enc dec chunk_size overlap h doc).length →
          (((enc doc.content).drop
            (j * (chunk_size - overlap).toNat)).take
              chunk_size.toNat).length = chunk_size.toNat)) := by
  refine ⟨?_, ?_, ?_⟩
  · intro h0
    rw [chunk_documents, dif_pos h0]
  · intro h0 h1
    rw [chunk_documents, dif_neg (not_lt.mpr h0), dif_pos h1]
  · intro h
    constructor
    · rw [chunk_documents, dif_neg (not_lt.mpr h.1),
        dif_neg (not_le.mpr h.2)]
    · intro doc _ j hj
      have hstep : 0 < (chunk_size - overlap).toNat := by omega
      have he : docChunksOf enc dec chunk_size overlap h doc =
          if doc.content.trim = "" then []
          else if (enc doc.content).isEmpty then []
          else chunkLoop dec chunk_size.toNat (chunk_size - overlap).toNat
            hstep doc.metadata.filename doc.metadata.page_number
            (enc doc.content) 0 0 := rfl
      rw [he] at hj ⊢
      by_cases h1 : doc.content.trim = ""
      · rw [if_pos h1] at hj
        simp at hj
      · rw [if_neg h1] at hj ⊢
        by_cases h2 : (enc doc.content).isEmpty
        · rw [if_pos h2] at hj
          simp at hj
        · rw [if_neg h2] at hj ⊢
          have hg := chunkLoop_get dec chunk_size.toNat
            (chunk_size - overlap).toNat hstep doc.metadata.filename
            doc.metadata.page_number (enc doc.content)
            (enc doc.content).length 0 0 (by omega) j hj
          simpa only [Nat.zero_add] using hg

/-- C6 witness: with `chunk_size = 2`, `overlap = 1`, a three-token document
produces a fragment at index 1 that is the window starting at token 1, and
the non-final fragment at index 0 has exactly two tokens. -/
theorem chunk_documents_spec_witness :
    chunk_documents (fun s => s.data.map Char.toNat) (fun _ => "w")
        [⟨"abc", "f.pdf", 1⟩] 2 1 =
      .ok ([⟨"abc", "f.pdf", 1⟩].flatMap
        (docChunksOf (fun s => s.data.map Char.toNat) (fun _ => "w") 2 1
          (by omega))) ∧
    (0 + 1 < (docChunksOf (fun s => s.data.map Char.toNat) (fun _ => "w") 2 1
        (by omega) ⟨"abc", "f.pdf", 1⟩).length →
      ((((fun s : String => s.data.map Char.toNat) "abc").drop
        (0 * ((2 : Int) - 1).toNat)).take (2 : Int).toNat).length =
        (2 : Int).toNat) := by
  have h := chunk_documents_spec (fun s => s.data.map Char.toNat)
    (fun _ => "w") [⟨"abc", "f.pdf", 1⟩] 2 1
  have h3 := (h.2.2 (by omega)).1
  refine ⟨h3, ?_⟩
  intro hlt
  exact (((h.2.2 (by omega)).2 ⟨"abc", "f.pdf", 1⟩ (by simp) 0
    (by omega)).2) hlt

end DocuMind
